import Mathlib

/-!
Shallow embedding of the two-stage retrieval pipeline in
`scripts/two_stage_search.py` (class `TwoStageSearch`), together with proofs
about the claims of the specification.

The embedding models the pure aggregation and context-assembly logic of
`TwoStageSearch.search` (lines 97-168), the text lookup
`TwoStageSearch._get_text_by_index` (lines 72-76), and the artifact loading
`TwoStageSearch._load` (lines 42-61).  The embedding calls (the external
collaborators) FAISS and the embedding provider are abstracted: `search` is
modelled as a function of the `(score, index)` hit pairs that
`self.index.search` returns.  Python floats are modelled as rational scores,
and the float expression `sum / n ** 0.5` is modelled as real division by
`Real.sqrt n`.
-/

namespace TwoStage

/-- One entry of `self.metadata`: a dict with keys `doc_id` and `chunk_index`
(see lines 102-104 of `two_stage_search.py`). -/
structure Meta where
  doc_id : String
  chunk_index : Nat
deriving DecidableEq

/-- One element of a `doc_chunks[doc_id]` list (lines 107-111): the stored
`chunk_index`, the FAISS index kept for text retrieval, and the chunk's
similarity score `float(score)` (modelled as a rational). -/
structure ChunkHit where
  chunk_index : Nat
  faiss_index : Int
  score : Rat
deriving DecidableEq

/-- One element of the `doc_scores` list (lines 114-122): the document id,
the sum of its chunk scores (the numerator of `doc_score`), and its
`matching_chunks` list (sorted by descending chunk score).  The aggregate
score itself is the derived real number `DocScore.scoreR`. -/
structure DocScore where
  doc_id : String
  sumScores : Rat
  matching_chunks : List ChunkHit
deriving DecidableEq

/-- The aggregate document score of line 117:
`doc_score = sum(c["score"] for c in chunks) / (n ** 0.5)`. -/
noncomputable def DocScore.scoreR (d : DocScore) : Real :=
  (d.sumScores : Real) / Real.sqrt (d.matching_chunks.length : Real)

/-- Executable comparison deciding `s₁ / sqrt n₁ ≥ s₂ / sqrt n₂` over the
rationals (with the `x / 0 = 0` convention matching real division).  This is
the comparison the sort of line 125 performs on the stored float scores. -/
def scoreGE (s₁ : Rat) (n₁ : Nat) (s₂ : Rat) (n₂ : Nat) : Bool :=
  if n₁ = 0 then
    if n₂ = 0 then true else decide (s₂ ≤ 0)
  else if n₂ = 0 then
    decide (0 ≤ s₁)
  else if 0 ≤ s₁ then
    if 0 ≤ s₂ then decide (s₂ ^ 2 * (n₁ : Rat) ≤ s₁ ^ 2 * (n₂ : Rat)) else true
  else
    if 0 ≤ s₂ then false else decide (s₁ ^ 2 * (n₂ : Rat) ≤ s₂ ^ 2 * (n₁ : Rat))

/-- Document comparison used by `doc_scores.sort(key=lambda x: -x["score"])`
(line 125): `docGE a b` holds when `a`'s aggregate score is at least `b`'s. -/
def docGE (a b : DocScore) : Bool :=
  scoreGE a.sumScores a.matching_chunks.length b.sumScores b.matching_chunks.length

/-- `docGE` as a relation, so that Python's stable descending sort of line 125
can be modelled by `List.insertionSort docLe` (a stable sort). -/
def docLe (a b : DocScore) : Prop := docGE a b = true

instance : DecidableRel docLe := fun a b => inferInstanceAs (Decidable (_ = true))

/-- Chunk comparison used by `sorted(chunks, key=lambda x: -x["score"])`
(line 121): descending similarity. -/
def chunkLe (a b : ChunkHit) : Prop := b.score ≤ a.score

instance : DecidableRel chunkLe := fun a b => inferInstanceAs (Decidable (_ ≤ _))

/-- `TwoStageSearch._get_text_by_index` (lines 72-76): return the stored text
when `0 <= idx < len(self.texts)`, and `""` otherwise. -/
def getTextByIndex (texts : List String) (idx : Int) : String :=
  if 0 ≤ idx ∧ idx < (texts.length : Int) then texts.getD idx.toNat "" else ""

/-- Insertion into the `doc_chunks` dict (lines 105-111): a Python dict
preserves insertion order, so it is modelled as an association list; a new
document id is appended at the end, an existing one gets the hit appended to
its chunk list. -/
def addHit (did : String) (c : ChunkHit) : List (String × List ChunkHit) →
    List (String × List ChunkHit)
  | [] => [(did, [c])]
  | (d, cs) :: rest =>
    if d = did then (d, cs ++ [c]) :: rest else (d, cs) :: addHit did c rest

/-- The grouping loop of lines 98-111: fold over the `(score, idx)` pairs of
`zip(scores[0], indices[0])`, skipping the negative sentinel indices, reading
`self.metadata[idx]`, and collecting chunks per document in insertion order.
(The Python list access `self.metadata[idx]` assumes `idx` is in range; the
model uses `getD` with an irrelevant default under that assumption.) -/
def groupHits (metadata : List Meta) (hits : List (Rat × Int)) :
    List (String × List ChunkHit) :=
  hits.foldl
    (fun acc h =>
      if h.2 < 0 then acc
      else
        let m := metadata.getD h.2.toNat ⟨"", 0⟩
        addHit m.doc_id ⟨m.chunk_index, h.2, h.1⟩ acc)
    []

/-- The document-scoring loop of lines 114-122: for each grouped document,
record the sum of its chunk scores and its chunk list sorted by descending
similarity (Python's `sorted` is stable, modelled by `insertionSort`). -/
def mkDocScores (grouped : List (String × List ChunkHit)) : List DocScore :=
  grouped.map fun g =>
    ⟨g.1, (g.2.map ChunkHit.score).sum, List.insertionSort chunkLe g.2⟩

/-- The document section header of line 139:
`doc_context = "\n--- Document: " + doc_id + " ---\n"`. -/
def headerOf (did : String) : String :=
  "\n--- Document: " ++ did ++ " ---\n"

/-- The inner chunk loop of lines 140-148, operating on the running section
string `ctx` (the Python `doc_context`) and the running total `tot` (the
Python `total_chars`): an empty resolved text is skipped; otherwise the
budget check `total_chars + len(chunk_text) + len(doc_context) <
max_context_chars` decides between appending (with surrounding newlines,
adding only the text length to the total) and breaking out of the loop. -/
def appendChunks (texts : List String) (maxC : Nat) :
    List ChunkHit → String → Nat → String × Nat
  | [], ctx, tot => (ctx, tot)
  | c :: rest, ctx, tot =>
    let t := getTextByIndex texts c.faiss_index
    if t = "" then
      appendChunks texts maxC rest ctx tot
    else if tot + t.length + ctx.length < maxC then
      appendChunks texts maxC rest (ctx ++ "\n" ++ t ++ "\n") (tot + t.length)
    else
      (ctx, tot)

/-- The document loop of lines 132-155: for each selected document take its
best 10 chunks (line 136), build its section starting from the header, keep
the section only if it grew beyond the bare header (lines 150-152), and stop
processing further documents once `total_chars >= max_context_chars`
(lines 154-155).  Returns the `context_parts` list and the final
`total_chars`. -/
def assemble (texts : List String) (maxC : Nat) :
    List DocScore → Nat → List String × Nat
  | [], tot => ([], tot)
  | d :: rest, tot =>
    let header := headerOf d.doc_id
    let r := appendChunks texts maxC (d.matching_chunks.take 10) header tot
    let keep : List String := if header.length < r.1.length then [r.1] else []
    if maxC ≤ r.2 then (keep, r.2)
    else
      let rec' := assemble texts maxC rest r.2
      (keep ++ rec'.1, rec'.2)

/-- A variant of `assemble` that differs only in omitting the document-level
early exit of lines 154-155; used to state that the early exit is dead code
for a positive budget. -/
def assembleAll (texts : List String) (maxC : Nat) :
    List DocScore → Nat → List String × Nat
  | [], tot => ([], tot)
  | d :: rest, tot =>
    let header := headerOf d.doc_id
    let r := appendChunks texts maxC (d.matching_chunks.take 10) header tot
    let keep : List String := if header.length < r.1.length then [r.1] else []
    let rec' := assembleAll texts maxC rest r.2
    (keep ++ rec'.1, rec'.2)

/-- `"\n".join(context_parts)` of line 157. -/
def joinParts : List String → String
  | [] => ""
  | [p] => p
  | p :: ps => p ++ "\n" ++ joinParts ps

/-- The return value of `search` (lines 159-168).  `document_scores` keeps
the full `DocScore` records of the selected documents, from which the
reported triples `(doc_id, score, num_matching_chunks)` are derived. -/
structure SearchResult where
  context : String
  top_documents : List String
  document_scores : List DocScore
  context_chars : Nat
deriving DecidableEq

/-- `TwoStageSearch.search` (lines 97-168) as a function of the hit pairs
returned by the vector index: group hits by document, score and sort the
documents, select the first `top_docs`, assemble the bounded context, and
report the result record. -/
def searchFrom (metadata : List Meta) (texts : List String)
    (hits : List (Rat × Int)) (top_docs maxC : Nat) : SearchResult :=
  let doc_scores := mkDocScores (groupHits metadata hits)
  let sorted := List.insertionSort docLe doc_scores
  let top := sorted.take top_docs
  let parts := (assemble texts maxC top 0).1
  let full := joinParts parts
  ⟨full, top.map DocScore.doc_id, top, full.length⟩

/-- The FAISS index artifact, reduced to what load-time alignment could
observe: its vector count `ntotal` (line 59). -/
structure FaissIndex where
  ntotal : Nat
deriving DecidableEq

/-- The state produced by a successful `_load`. -/
structure TwoStageState where
  index : FaissIndex
  metadata : List Meta
  texts : List String
deriving DecidableEq

/-- `TwoStageSearch._load` (lines 42-61): read the three artifacts; a missing
(unreadable) artifact raises, modelled by `none`; no alignment validation of
the three artifacts is performed. -/
def load (indexFile : Option FaissIndex) (metadataFile : Option (List Meta))
    (textsFile : Option (List String)) : Option TwoStageState :=
  match indexFile, metadataFile, textsFile with
  | some i, some m, some t => some ⟨i, m, t⟩
  | _, _, _ => none

/-- The slack term of the corrected context-length bound: for each selected
document, its header length, two newline characters per possibly appended
chunk, and one joining separator. -/
def slackBound (docs : List DocScore) : Nat :=
  (docs.map fun d =>
    (headerOf d.doc_id).length + 2 * (d.matching_chunks.take 10).length + 1).sum

end TwoStage
namespace TwoStage

/-! ## Proof development -/

theorem scoreGE_iff (s₁ s₂ : Rat) (n₁ n₂ : Nat) :
    scoreGE s₁ n₁ s₂ n₂ = true ↔
      (s₂ : Real) / Real.sqrt (n₂ : Real) ≤ (s₁ : Real) / Real.sqrt (n₁ : Real) := by
  have sq_pos : ∀ n : Nat, n ≠ 0 → (0:Real) < Real.sqrt (n : Real) := by
    intro n hn
    exact Real.sqrt_pos.mpr (by exact_mod_cast Nat.pos_of_ne_zero hn)
  unfold scoreGE
  split_ifs with h1 h2 h3 h4 h5 h6
  · subst h1; subst h2
    simp
  · subst h1
    simp only [Nat.cast_zero, Real.sqrt_zero, div_zero, decide_eq_true_eq]
    rw [div_le_iff₀ (sq_pos n₂ h2), zero_mul]
    exact Rat.cast_nonpos.symm
  · subst h3
    simp only [Nat.cast_zero, Real.sqrt_zero, div_zero, decide_eq_true_eq]
    rw [le_div_iff₀ (sq_pos n₁ h1), zero_mul]
    exact Rat.cast_nonneg.symm
  · rw [div_le_div_iff (sq_pos n₂ h3) (sq_pos n₁ h1), decide_eq_true_eq]
    have c₁ : (0:Real) ≤ (s₁ : Real) := by exact_mod_cast h4
    have c₂ : (0:Real) ≤ (s₂ : Real) := by exact_mod_cast h5
    rw [← pow_le_pow_iff_left (mul_nonneg c₂ (Real.sqrt_nonneg _))
      (mul_nonneg c₁ (Real.sqrt_nonneg _)) (two_ne_zero), mul_pow, mul_pow,
      Real.sq_sqrt (by positivity), Real.sq_sqrt (by positivity)]
    constructor
    · intro h; exact_mod_cast h
    · intro h; exact_mod_cast h
  · rw [div_le_div_iff (sq_pos n₂ h3) (sq_pos n₁ h1)]
    have c₁ : (0:Real) ≤ (s₁ : Real) := by exact_mod_cast h4
    have c₂ : (s₂ : Real) ≤ 0 := by exact_mod_cast (le_of_not_le h5)
    simp only [true_iff]
    have p₁ := mul_nonneg c₁ (Real.sqrt_nonneg ((n₂ : Nat) : Real))
    have p₂ := mul_nonneg (neg_nonneg.mpr c₂) (Real.sqrt_nonneg ((n₁ : Nat) : Real))
    nlinarith
  · rw [div_le_div_iff (sq_pos n₂ h3) (sq_pos n₁ h1)]
    have c₁ : (s₁ : Real) ≤ 0 := by exact_mod_cast (le_of_not_le h4)
    have c₁' : (s₁ : Real) < 0 := by
      exact_mod_cast (lt_of_not_ge h4)
    have c₂ : (0:Real) ≤ (s₂ : Real) := by exact_mod_cast h6
    simp only [false_iff, not_le]
    have p₁ := mul_nonneg c₂ (Real.sqrt_nonneg ((n₁ : Nat) : Real))
    have p₂ := mul_neg_of_neg_of_pos c₁' (sq_pos n₂ h3)
    nlinarith
  · rw [div_le_div_iff (sq_pos n₂ h3) (sq_pos n₁ h1), decide_eq_true_eq]
    have c₁ : (0:Real) ≤ -(s₁ : Real) := by
      have : (s₁ : Real) ≤ 0 := by exact_mod_cast (le_of_not_le h4)
      linarith
    have c₂ : (0:Real) ≤ -(s₂ : Real) := by
      have : (s₂ : Real) ≤ 0 := by exact_mod_cast (le_of_not_le h6)
      linarith
    have hiff : (s₂ : Real) * Real.sqrt (n₁ : Real) ≤ (s₁ : Real) * Real.sqrt (n₂ : Real) ↔
        -(s₁ : Real) * Real.sqrt (n₂ : Real) ≤ -(s₂ : Real) * Real.sqrt (n₁ : Real) := by
      constructor <;> intro h <;> nlinarith
    rw [hiff, ← pow_le_pow_iff_left (mul_nonneg c₁ (Real.sqrt_nonneg _))
      (mul_nonneg c₂ (Real.sqrt_nonneg _)) (two_ne_zero), mul_pow, mul_pow,
      Real.sq_sqrt (by positivity), Real.sq_sqrt (by positivity), neg_sq, neg_sq]
    constructor
    · intro h; exact_mod_cast h
    · intro h; exact_mod_cast h

end TwoStage

namespace TwoStage

/-- The executable document comparison agrees with the real-valued aggregate
score of line 117: `docLe a b` holds exactly when `a`'s score is at least
`b`'s. -/
theorem docLe_iff (a b : DocScore) : docLe a b ↔ b.scoreR ≤ a.scoreR := by
  unfold docLe docGE DocScore.scoreR
  exact scoreGE_iff a.sumScores b.sumScores a.matching_chunks.length b.matching_chunks.length

instance : IsTotal DocScore docLe :=
  ⟨fun a b => by
    rw [docLe_iff, docLe_iff]
    exact le_total _ _⟩

instance : IsTrans DocScore docLe :=
  ⟨fun a b c hab hbc => by
    rw [docLe_iff] at hab hbc ⊢
    exact le_trans hbc hab⟩

instance : IsTotal ChunkHit chunkLe :=
  ⟨fun a b => le_total b.score a.score⟩

instance : IsTrans ChunkHit chunkLe :=
  ⟨fun _ _ _ hab hbc => le_trans hbc hab⟩

end TwoStage
namespace TwoStage

theorem appendChunks_spec (texts : List String) (maxC : Nat) :
    ∀ (cs : List ChunkHit) (ctx : String) (tot : Nat),
      ∃ s k m, appendChunks texts maxC cs ctx tot = (ctx ++ s, tot + k) ∧
        s.length = k + 2 * m ∧ m ≤ cs.length ∧ (k = 0 ∨ tot + k < maxC) := by
  intro cs
  induction cs with
  | nil =>
    intro ctx tot
    exact ⟨"", 0, 0, by simp [appendChunks], by simp, by simp, Or.inl rfl⟩
  | cons c rest ih =>
    intro ctx tot
    by_cases ht : getTextByIndex texts c.faiss_index = ""
    · obtain ⟨s, k, m, he, hl, hm, hb⟩ := ih ctx tot
      exact ⟨s, k, m, by simp [appendChunks, ht, he], hl,
        Nat.le_succ_of_le hm |>.trans (by simp), hb⟩
    · by_cases hc : tot + (getTextByIndex texts c.faiss_index).length + ctx.length < maxC
      · obtain ⟨s, k, m, he, hl, hm, hb⟩ :=
          ih (ctx ++ "\n" ++ getTextByIndex texts c.faiss_index ++ "\n")
            (tot + (getTextByIndex texts c.faiss_index).length)
        refine ⟨"\n" ++ getTextByIndex texts c.faiss_index ++ "\n" ++ s,
          (getTextByIndex texts c.faiss_index).length + k, m + 1, ?_, ?_, ?_, ?_⟩
        · have step : appendChunks texts maxC (c :: rest) ctx tot =
              appendChunks texts maxC rest
                (ctx ++ "\n" ++ getTextByIndex texts c.faiss_index ++ "\n")
                (tot + (getTextByIndex texts c.faiss_index).length) := by
            simp only [appendChunks]
            rw [if_neg ht, if_pos hc]
          rw [step, he, Prod.mk.injEq]
          exact ⟨by simp [String.append_assoc], by omega⟩
        · have h1 : ("\n" : String).length = 1 := rfl
          simp only [String.length_append, h1, hl]
          omega
        · simpa using Nat.succ_le_succ hm
        · right
          rcases hb with hb | hb
          · omega
          · omega
      · exact ⟨"", 0, 0, by simp [appendChunks, ht, hc], by simp, by simp, Or.inl rfl⟩

end TwoStage
namespace TwoStage

theorem appendChunks_snd_lt (texts : List String) (maxC : Nat) (cs : List ChunkHit)
    (ctx : String) (tot : Nat) (h : tot < maxC) :
    (appendChunks texts maxC cs ctx tot).2 < maxC := by
  obtain ⟨s, k, m, he, _, _, hb⟩ := appendChunks_spec texts maxC cs ctx tot
  rw [he]
  rcases hb with hb | hb <;> omega

theorem assemble_eq_assembleAll_and_lt (texts : List String) (maxC : Nat) :
    ∀ (docs : List DocScore) (tot : Nat), tot < maxC →
      assemble texts maxC docs tot = assembleAll texts maxC docs tot ∧
        (assemble texts maxC docs tot).2 < maxC := by
  intro docs
  induction docs with
  | nil => intro tot h; exact ⟨rfl, h⟩
  | cons d rest ih =>
    intro tot h
    have hr := appendChunks_snd_lt texts maxC (d.matching_chunks.take 10)
      (headerOf d.doc_id) tot h
    obtain ⟨ihEq, ihLt⟩ := ih _ hr
    constructor
    · simp only [assemble, assembleAll]
      rw [if_neg (not_le.mpr hr), ihEq]
    · simp only [assemble]
      rw [if_neg (not_le.mpr hr)]
      exact ihLt

theorem assemble_mem (texts : List String) (maxC : Nat) :
    ∀ (docs : List DocScore) (tot : Nat) (p : String),
      p ∈ (assemble texts maxC docs tot).1 →
        ∃ d ∈ docs, ∃ s, s ≠ "" ∧ p = headerOf d.doc_id ++ s := by
  intro docs
  induction docs with
  | nil => intro tot p hp; simp [assemble] at hp
  | cons d rest ih =>
    intro tot p hp
    obtain ⟨s, k, m, he, hl, hm, hb⟩ :=
      appendChunks_spec texts maxC (d.matching_chunks.take 10) (headerOf d.doc_id) tot
    have hassem : (assemble texts maxC (d :: rest) tot).1 =
        (if (headerOf d.doc_id).length < (headerOf d.doc_id ++ s).length
          then [headerOf d.doc_id ++ s] else []) ++
        (if maxC ≤ tot + k then [] else (assemble texts maxC rest (tot + k)).1) := by
      simp only [assemble, he]
      split_ifs <;> simp
    rw [hassem, List.mem_append] at hp
    rcases hp with hp | hp
    · split_ifs at hp with hlen
      · rw [List.mem_singleton] at hp
        subst hp
        refine ⟨d, List.mem_cons_self d rest, s, ?_, rfl⟩
        intro hs
        rw [hs, String.append_empty] at hlen
        exact lt_irrefl _ hlen
      · simp at hp
    · split_ifs at hp with hbr
      · simp at hp
      · obtain ⟨e, hme, s2, hs2, hq⟩ := ih _ p hp
        exact ⟨e, List.mem_cons_of_mem d hme, s2, hs2, hq⟩

theorem joinParts_length : ∀ ps : List String,
    (joinParts ps).length ≤ (ps.map String.length).sum + ps.length := by
  intro ps
  induction ps with
  | nil => simp [joinParts]
  | cons p rest ih =>
    cases rest with
    | nil => simp [joinParts]
    | cons q t =>
      have h1 : ("\n" : String).length = 1 := rfl
      simp only [joinParts, String.length_append, h1, List.map_cons, List.sum_cons,
        List.length_cons] at ih ⊢
      omega

theorem sum_map_add_one (docs : List DocScore) (f : DocScore → Nat) :
    (docs.map fun d => f d + 1).sum = (docs.map f).sum + docs.length := by
  induction docs with
  | nil => simp
  | cons d rest ih => simp [ih]; omega

end TwoStage
namespace TwoStage

theorem assemble_length_spec (texts : List String) (maxC : Nat) :
    ∀ (docs : List DocScore) (tot : Nat),
      tot ≤ (assemble texts maxC docs tot).2 ∧
      (assemble texts maxC docs tot).1.length ≤ docs.length ∧
      ((assemble texts maxC docs tot).1.map String.length).sum + tot ≤
        (assemble texts maxC docs tot).2 +
          (docs.map fun d =>
            (headerOf d.doc_id).length + 2 * (d.matching_chunks.take 10).length).sum := by
  intro docs
  induction docs with
  | nil => intro tot; simp [assemble]
  | cons d rest ih =>
    intro tot
    obtain ⟨s, k, m, he, hl, hm, hb⟩ :=
      appendChunks_spec texts maxC (d.matching_chunks.take 10) (headerOf d.doc_id) tot
    have hassem : assemble texts maxC (d :: rest) tot =
        if maxC ≤ tot + k then
          ((if (headerOf d.doc_id).length < (headerOf d.doc_id ++ s).length
            then [headerOf d.doc_id ++ s] else []), tot + k)
        else
          ((if (headerOf d.doc_id).length < (headerOf d.doc_id ++ s).length
            then [headerOf d.doc_id ++ s] else []) ++ (assemble texts maxC rest (tot + k)).1,
            (assemble texts maxC rest (tot + k)).2) := by
      simp only [assemble, he]
    have hkeepSum :
        (((if (headerOf d.doc_id).length < (headerOf d.doc_id ++ s).length
          then [headerOf d.doc_id ++ s] else ([] : List String)).map String.length).sum ≤
            (headerOf d.doc_id).length + k + 2 * m) ∧
        (if (headerOf d.doc_id).length < (headerOf d.doc_id ++ s).length
          then [headerOf d.doc_id ++ s] else ([] : List String)).length ≤ 1 := by
      split_ifs with hlen
      · simp [String.length_append, hl]
        omega
      · simp
    obtain ⟨hks, hkl⟩ := hkeepSum
    by_cases hbr : maxC ≤ tot + k
    · rw [hassem, if_pos hbr]
      refine ⟨by omega, by simpa using le_trans hkl (by simp), ?_⟩
      simp only [List.map_cons, List.sum_cons]
      omega
    · rw [hassem, if_neg hbr]
      obtain ⟨ih1, ih2, ih3⟩ := ih (tot + k)
      refine ⟨by omega, ?_, ?_⟩
      · simp only [List.length_append, List.length_cons]
        omega
      · simp only [List.map_append, List.sum_append, List.map_cons, List.sum_cons]
        omega


theorem string_len_zero {s : String} (h : s.length = 0) : s = "" := by
  cases s with
  | mk data =>
    simp only [String.length] at h
    rw [List.length_eq_zero] at h
    rw [h]

theorem groupHits_of_neg (metadata : List Meta) :
    ∀ hits : List (Rat × Int), (∀ p ∈ hits, p.2 < 0) → groupHits metadata hits = [] := by
  intro hits
  induction hits with
  | nil => intro _; rfl
  | cons p rest ih =>
    intro h
    unfold groupHits at ih ⊢
    rw [List.foldl_cons]
    simp only [if_pos (h p (List.mem_cons_self p rest))]
    exact ih (fun q hq => h q (List.mem_cons_of_mem p hq))

end TwoStage
namespace TwoStage

/-- C10: for every positive `max_context_chars`, the running total stays
strictly below the budget after every append, so the document-level early
exit of lines 154-155 is never taken and every selected document is
iterated (`assemble` coincides with the exit-free `assembleAll`). -/
theorem running_total_lt_budget_and_no_early_exit (texts : List String)
    (maxC : Nat) (docs : List DocScore) (h : 0 < maxC) :
    (∀ (cs : List ChunkHit) (ctx : String) (tot : Nat), tot < maxC →
      (appendChunks texts maxC cs ctx tot).2 < maxC) ∧
    assemble texts maxC docs 0 = assembleAll texts maxC docs 0 :=
  ⟨fun cs ctx tot ht => appendChunks_snd_lt texts maxC cs ctx tot ht,
    (assemble_eq_assembleAll_and_lt texts maxC docs 0 h).1⟩

/-- Witness for C10's theorem at a concrete instance. -/
theorem running_total_lt_budget_and_no_early_exit_witness :
    (0:Nat) < 5 ∧
    ((∀ (cs : List ChunkHit) (ctx : String) (tot : Nat), tot < 5 →
      (appendChunks ["ab"] 5 cs ctx tot).2 < 5) ∧
    assemble ["ab"] 5 [⟨"A", 1, [⟨0, 0, 1⟩]⟩] 0 =
      assembleAll ["ab"] 5 [⟨"A", 1, [⟨0, 0, 1⟩]⟩] 0) :=
  ⟨by decide,
    running_total_lt_budget_and_no_early_exit ["ab"] 5 [⟨"A", 1, [⟨0, 0, 1⟩]⟩] (by decide)⟩

/-- C9: an index that does not resolve to stored text yields `""` from
`_get_text_by_index`, and such a chunk is skipped by the assembly loop
without any other effect (no budget check, no append, no abort). -/
theorem missing_text_is_skipped (texts : List String) (idx : Int)
    (h : idx < 0 ∨ (texts.length : Int) ≤ idx) :
    getTextByIndex texts idx = "" ∧
    ∀ (maxC : Nat) (c : ChunkHit) (rest : List ChunkHit) (ctx : String) (tot : Nat),
      getTextByIndex texts c.faiss_index = "" →
      appendChunks texts maxC (c :: rest) ctx tot =
        appendChunks texts maxC rest ctx tot := by
  constructor
  · unfold getTextByIndex
    rw [if_neg]
    rintro ⟨h1, h2⟩
    rcases h with h | h <;> omega
  · intro maxC c rest ctx tot ht
    simp [appendChunks, ht]

/-- Witness for C9's theorem at a concrete instance. -/
theorem missing_text_is_skipped_witness :
    ((5:Int) < 0 ∨ ((["a"].length : Int) ≤ 5)) ∧
    (getTextByIndex ["a"] 5 = "" ∧
    ∀ (maxC : Nat) (c : ChunkHit) (rest : List ChunkHit) (ctx : String) (tot : Nat),
      getTextByIndex ["a"] c.faiss_index = "" →
      appendChunks ["a"] maxC (c :: rest) ctx tot =
        appendChunks ["a"] maxC rest ctx tot) :=
  ⟨by decide, missing_text_is_skipped ["a"] 5 (by decide)⟩

/-- C5 (amended): for a candidate chunk whose resolved text is non-empty,
the chunk is appended exactly when the pre-append budget check passes, and
a failing check stops the whole per-document chunk loop. -/
theorem chunk_append_iff_budget (texts : List String) (maxC : Nat) (c : ChunkHit)
    (rest : List ChunkHit) (ctx : String) (tot : Nat)
    (h : getTextByIndex texts c.faiss_index ≠ "") :
    (tot + (getTextByIndex texts c.faiss_index).length + ctx.length < maxC →
      appendChunks texts maxC (c :: rest) ctx tot =
        appendChunks texts maxC rest
          (ctx ++ "\n" ++ getTextByIndex texts c.faiss_index ++ "\n")
          (tot + (getTextByIndex texts c.faiss_index).length)) ∧
    (¬ tot + (getTextByIndex texts c.faiss_index).length + ctx.length < maxC →
      appendChunks texts maxC (c :: rest) ctx tot = (ctx, tot)) := by
  constructor <;> intro hc
  · simp only [appendChunks]
    rw [if_neg h, if_pos hc]
  · simp only [appendChunks]
    rw [if_neg h, if_neg hc]

/-- Witness for C5's amended theorem at a concrete instance. -/
theorem chunk_append_iff_budget_witness :
    (getTextByIndex ["xy"] (0:Int) ≠ "") ∧
    ((0 + (getTextByIndex ["xy"] (0:Int)).length + ("h").length < 100 →
      appendChunks ["xy"] 100 [⟨0, 0, 1⟩] "h" 0 =
        appendChunks ["xy"] 100 []
          ("h" ++ "\n" ++ getTextByIndex ["xy"] (0:Int) ++ "\n")
          (0 + (getTextByIndex ["xy"] (0:Int)).length)) ∧
    (¬ 0 + (getTextByIndex ["xy"] (0:Int)).length + ("h").length < 100 →
      appendChunks ["xy"] 100 [⟨0, 0, 1⟩] "h" 0 = ("h", 0))) :=
  ⟨by decide, chunk_append_iff_budget ["xy"] 100 ⟨0, 0, 1⟩ [] "h" 0 (by decide)⟩

/-- C5 (counterexample): a candidate chunk with empty resolved text passes
the budget check yet is not appended (the result lacks the separating
newlines the claimed append would add), so "appended iff the check holds"
fails as stated. -/
theorem chunk_append_iff_budget_counterexample :
    (0 + (getTextByIndex [] (0:Int)).length + (headerOf "A").length < 100) ∧
    appendChunks [] 100 [⟨0, 0, 1⟩] (headerOf "A") 0 = (headerOf "A", 0) ∧
    (headerOf "A", (0:Nat)) ≠
      (headerOf "A" ++ "\n" ++ getTextByIndex [] (0:Int) ++ "\n",
        0 + (getTextByIndex [] (0:Int)).length) := by
  refine ⟨by decide, by decide, by decide⟩

/-- C8: when every returned index is the negative sentinel, `search` returns
an empty context and an empty document list (a valid result, not an error). -/
theorem no_hits_empty_result (metadata : List Meta) (texts : List String)
    (hits : List (Rat × Int)) (top_docs maxC : Nat)
    (h : ∀ p ∈ hits, p.2 < 0) :
    (searchFrom metadata texts hits top_docs maxC).context = "" ∧
    (searchFrom metadata texts hits top_docs maxC).top_documents = [] := by
  have hg := groupHits_of_neg metadata hits h
  constructor <;>
    simp [searchFrom, hg, mkDocScores, List.insertionSort, assemble, joinParts]

/-- Witness for C8's theorem at a concrete instance. -/
theorem no_hits_empty_result_witness :
    (∀ p ∈ [((1:Rat), (-1:Int))], p.2 < 0) ∧
    ((searchFrom [⟨"A", 0⟩] ["t"] [((1:Rat), (-1:Int))] 5 100).context = "" ∧
    (searchFrom [⟨"A", 0⟩] ["t"] [((1:Rat), (-1:Int))] 5 100).top_documents = []) :=
  ⟨by decide, no_hits_empty_result [⟨"A", 0⟩] ["t"] [((1:Rat), (-1:Int))] 5 100 (by decide)⟩

/-- C3 (amended): loading succeeds exactly when all three artifacts are
present; no alignment validation is performed at load time, so a length
mismatch between index, metadata and texts is not detected during `_load`. -/
theorem load_isSome_iff (i : Option FaissIndex) (m : Option (List Meta))
    (t : Option (List String)) :
    (load i m t).isSome = true ↔ (i.isSome = true ∧ m.isSome = true ∧ t.isSome = true) := by
  cases i <;> cases m <;> cases t <;> simp [load]

/-- C3 (counterexample): misaligned artifacts (2 vectors, 1 metadata row,
3 texts) load successfully into an operational state, so "a mismatch is a
fatal load-time error" fails on the code. -/
theorem load_misaligned_counterexample :
    load (some ⟨2⟩) (some [⟨"A", 0⟩]) (some ["x", "y", "z"]) =
      some ⟨⟨2⟩, [⟨"A", 0⟩], ["x", "y", "z"]⟩ ∧
    ((⟨2⟩ : FaissIndex).ntotal ≠ ([⟨"A", 0⟩] : List Meta).length ∨
      ([⟨"A", 0⟩] : List Meta).length ≠ (["x", "y", "z"] : List String).length) := by
  refine ⟨by decide, by decide⟩

/-- C6: a selected document for which no chunk text was appended contributes
no section at all to the context (processing simply moves to the next
document), and every emitted section strictly extends its header, so the
context never contains a header-only section. -/
theorem header_only_section_discarded (texts : List String) (maxC : Nat)
    (d : DocScore) (rest : List DocScore) (tot : Nat)
    (h1 : (appendChunks texts maxC (d.matching_chunks.take 10) (headerOf d.doc_id) tot).1 =
      headerOf d.doc_id)
    (h2 : tot < maxC) :
    assemble texts maxC (d :: rest) tot = assemble texts maxC rest tot ∧
    ∀ (docs : List DocScore) (tot' : Nat) (p : String),
      p ∈ (assemble texts maxC docs tot').1 →
        ∃ e ∈ docs, ∃ s, s ≠ "" ∧ p = headerOf e.doc_id ++ s := by
  refine ⟨?_, assemble_mem texts maxC⟩
  obtain ⟨s, k, m, he, hl, hm, hb⟩ :=
    appendChunks_spec texts maxC (d.matching_chunks.take 10) (headerOf d.doc_id) tot
  have hfst : headerOf d.doc_id ++ s = headerOf d.doc_id := by
    rw [he] at h1
    exact h1
  have hsl : s.length = 0 := by
    have := congrArg String.length hfst
    rw [String.length_append] at this
    omega
  have hs : s = "" := string_len_zero hsl
  have hk : k = 0 := by
    rw [hs] at hl
    simp at hl
    omega
  have he' : appendChunks texts maxC (d.matching_chunks.take 10) (headerOf d.doc_id) tot =
      (headerOf d.doc_id, tot) := by
    rw [he, hs, hk, String.append_empty, Nat.add_zero]
  simp only [assemble, he']
  rw [if_neg (lt_irrefl (headerOf d.doc_id).length), if_neg (not_le.mpr h2)]
  simp

end TwoStage
namespace TwoStage

/-- Witness for C6's theorem at a concrete instance: the only chunk is
longer than the whole budget, so nothing is appended and the section is
dropped. -/
theorem header_only_section_discarded_witness :
    ((appendChunks ["HELLOWORLD"] 5 ((⟨"A", 1, [⟨0, 0, 1⟩]⟩ : DocScore).matching_chunks.take 10)
        (headerOf (⟨"A", 1, [⟨0, 0, 1⟩]⟩ : DocScore).doc_id) 0).1 =
      headerOf (⟨"A", 1, [⟨0, 0, 1⟩]⟩ : DocScore).doc_id) ∧ (0:Nat) < 5 ∧
    (assemble ["HELLOWORLD"] 5 [⟨"A", 1, [⟨0, 0, 1⟩]⟩] 0 = assemble ["HELLOWORLD"] 5 [] 0 ∧
    ∀ (docs : List DocScore) (tot' : Nat) (p : String),
      p ∈ (assemble ["HELLOWORLD"] 5 docs tot').1 →
        ∃ e ∈ docs, ∃ s, s ≠ "" ∧ p = headerOf e.doc_id ++ s) :=
  ⟨by decide, by decide,
    header_only_section_discarded ["HELLOWORLD"] 5 ⟨"A", 1, [⟨0, 0, 1⟩]⟩ [] 0
      (by decide) (by decide)⟩

/-- C1 (amended): the length of the returned context is bounded by
`max_context_chars` plus, for every selected document, its header length,
two newline characters per candidate chunk, and one joining separator.
Only the accumulated chunk-text total is held below the budget; headers and
separators are uncounted, so the slack grows with the number of included
documents and is not limited to a single header. -/
theorem context_length_bound (metadata : List Meta) (texts : List String)
    (hits : List (Rat × Int)) (top_docs maxC : Nat) (h : 0 < maxC) :
    (searchFrom metadata texts hits top_docs maxC).context.length ≤
      maxC + slackBound (searchFrom metadata texts hits top_docs maxC).document_scores := by
  have hres : (searchFrom metadata texts hits top_docs maxC).context =
      joinParts (assemble texts maxC
        ((List.insertionSort docLe (mkDocScores (groupHits metadata hits))).take top_docs) 0).1 :=
    rfl
  have hds : (searchFrom metadata texts hits top_docs maxC).document_scores =
      (List.insertionSort docLe (mkDocScores (groupHits metadata hits))).take top_docs := rfl
  rw [hres, hds]
  have hjoin := joinParts_length (assemble texts maxC
    ((List.insertionSort docLe (mkDocScores (groupHits metadata hits))).take top_docs) 0).1
  obtain ⟨h1, h2, h3⟩ := assemble_length_spec texts maxC
    ((List.insertionSort docLe (mkDocScores (groupHits metadata hits))).take top_docs) 0
  have hlt := (assemble_eq_assembleAll_and_lt texts maxC
    ((List.insertionSort docLe (mkDocScores (groupHits metadata hits))).take top_docs) 0 h).2
  unfold slackBound
  rw [sum_map_add_one]
  omega

/-- Witness for C1's amended theorem at a concrete instance. -/
theorem context_length_bound_witness :
    (0:Nat) < 60 ∧
    (searchFrom [⟨"A", 0⟩] ["aaaaaaaaaa"] [((1:Rat), (0:Int))] 5 60).context.length ≤
      60 + slackBound
        (searchFrom [⟨"A", 0⟩] ["aaaaaaaaaa"] [((1:Rat), (0:Int))] 5 60).document_scores :=
  ⟨by decide, context_length_bound [⟨"A", 0⟩] ["aaaaaaaaaa"] [((1:Rat), (0:Int))] 5 60 (by decide)⟩

/-- C1 (counterexample): with a budget of 60 and five single-chunk documents
(header length 21 each, chunk texts of length 10), the assembled context has
length 101 > 60 + 21, exceeding the budget by more than one header length. -/
theorem context_length_counterexample :
    (searchFrom [⟨"A", 0⟩, ⟨"B", 0⟩, ⟨"C", 0⟩, ⟨"D", 0⟩, ⟨"E", 0⟩]
      ["aaaaaaaaaa", "bbbbbbbbbb", "cccccccccc", "dddddddddd", "eeeeeeeeee"]
      [(0.9, 0), (0.8, 1), (0.7, 2), (0.6, 3), (0.5, 4)] 5 60).context ≠ "" ∧
    (searchFrom [⟨"A", 0⟩, ⟨"B", 0⟩, ⟨"C", 0⟩, ⟨"D", 0⟩, ⟨"E", 0⟩]
      ["aaaaaaaaaa", "bbbbbbbbbb", "cccccccccc", "dddddddddd", "eeeeeeeeee"]
      [(0.9, 0), (0.8, 1), (0.7, 2), (0.6, 3), (0.5, 4)] 5 60).context.length = 101 ∧
    (headerOf "A").length = 21 ∧ (headerOf "B").length = 21 ∧ (headerOf "C").length = 21 ∧
    (headerOf "D").length = 21 ∧ (headerOf "E").length = 21 ∧ 60 + 21 < 101 := by
  refine ⟨by with_unfolding_all decide, by with_unfolding_all decide, by decide, by decide,
    by decide, by decide, by decide, by decide⟩

/-- C4 (amended): `top_documents` is exactly the ranked list of the selected
(first `top_docs`) documents, whether or not each contributed text; every
emitted context section does come from a document listed in
`top_documents`, but a listed document may contribute nothing. -/
theorem top_documents_are_selected (metadata : List Meta) (texts : List String)
    (hits : List (Rat × Int)) (top_docs maxC : Nat) :
    (searchFrom metadata texts hits top_docs maxC).top_documents =
      ((List.insertionSort docLe (mkDocScores (groupHits metadata hits))).take top_docs).map
        DocScore.doc_id ∧
    ∀ p ∈ (assemble texts maxC
        ((List.insertionSort docLe (mkDocScores (groupHits metadata hits))).take top_docs) 0).1,
      ∃ d ∈ (List.insertionSort docLe (mkDocScores (groupHits metadata hits))).take top_docs,
        d.doc_id ∈ (searchFrom metadata texts hits top_docs maxC).top_documents ∧
        ∃ s, s ≠ "" ∧ p = headerOf d.doc_id ++ s := by
  refine ⟨rfl, ?_⟩
  intro p hp
  obtain ⟨d, hd, s, hs, hps⟩ := assemble_mem texts maxC _ 0 p hp
  exact ⟨d, hd, List.mem_map_of_mem DocScore.doc_id hd, s, hs, hps⟩

/-- Witness for C4's amended theorem at a concrete instance. -/
theorem top_documents_are_selected_witness :
    (searchFrom [⟨"A", 0⟩] ["tt"] [((1:Rat), (0:Int))] 5 100).top_documents =
      ((List.insertionSort docLe
        (mkDocScores (groupHits [⟨"A", 0⟩] [((1:Rat), (0:Int))]))).take 5).map
        DocScore.doc_id ∧
    ∀ p ∈ (assemble ["tt"] 100
        ((List.insertionSort docLe
          (mkDocScores (groupHits [⟨"A", 0⟩] [((1:Rat), (0:Int))]))).take 5) 0).1,
      ∃ d ∈ (List.insertionSort docLe
          (mkDocScores (groupHits [⟨"A", 0⟩] [((1:Rat), (0:Int))]))).take 5,
        d.doc_id ∈ (searchFrom [⟨"A", 0⟩] ["tt"] [((1:Rat), (0:Int))] 5 100).top_documents ∧
        ∃ s, s ≠ "" ∧ p = headerOf d.doc_id ++ s :=
  top_documents_are_selected [⟨"A", 0⟩] ["tt"] [((1:Rat), (0:Int))] 5 100

/-- C4 (counterexample): a document whose only candidate chunk overflows the
budget appears in `top_documents` although no section of it (and indeed no
text at all) was included in the context, refuting the claimed
"if and only if". -/
theorem top_documents_counterexample :
    (searchFrom [⟨"A", 0⟩] ["HELLOWORLD"] [((1:Rat), (0:Int))] 5 5).top_documents = ["A"] ∧
    (searchFrom [⟨"A", 0⟩] ["HELLOWORLD"] [((1:Rat), (0:Int))] 5 5).context = "" := by
  refine ⟨by decide, by decide⟩

end TwoStage
namespace TwoStage

/-- C7: after aggregation the document list is sorted by descending
aggregate score, the sort permutes the aggregation output, any pair tied on
score keeps its aggregation insertion order (stability), exactly the first
`top_docs` of that order are reported, and in the concrete three-document
example with `top_docs = 2` the two best documents appear in descending
score order. -/
theorem ranking_descending_stable_selection (metadata : List Meta) (texts : List String)
    (hits : List (Rat × Int)) (top_docs maxC : Nat) :
    List.Sorted (fun a b => DocScore.scoreR b ≤ DocScore.scoreR a)
      (List.insertionSort docLe (mkDocScores (groupHits metadata hits))) ∧
    (List.insertionSort docLe (mkDocScores (groupHits metadata hits))).Perm
      (mkDocScores (groupHits metadata hits)) ∧
    (∀ a b : DocScore, DocScore.scoreR a = DocScore.scoreR b →
      List.Sublist [a, b] (mkDocScores (groupHits metadata hits)) →
      List.Sublist [a, b]
        (List.insertionSort docLe (mkDocScores (groupHits metadata hits)))) ∧
    (searchFrom metadata texts hits top_docs maxC).top_documents =
      ((List.insertionSort docLe (mkDocScores (groupHits metadata hits))).take top_docs).map
        DocScore.doc_id ∧
    (searchFrom [⟨"A", 0⟩, ⟨"B", 1⟩, ⟨"C", 2⟩] ["ta", "tb", "tc"]
      [(0.9, 0), (0.5, 1), (0.7, 2)] 2 1000).top_documents = ["A", "C"] := by
  refine ⟨?_, List.perm_insertionSort docLe _, ?_, rfl, by with_unfolding_all decide⟩
  · exact List.Pairwise.imp (fun hab => (docLe_iff _ _).mp hab)
      (List.sorted_insertionSort docLe _)
  · intro a b hs hsub
    exact List.pair_sublist_insertionSort ((docLe_iff a b).mpr (le_of_eq hs.symm)) hsub

/-- Witness for C7's theorem, extracting the concrete selection example. -/
theorem ranking_descending_stable_selection_witness :
    (searchFrom [⟨"A", 0⟩, ⟨"B", 1⟩, ⟨"C", 2⟩] ["ta", "tb", "tc"]
      [(0.9, 0), (0.5, 1), (0.7, 2)] 2 1000).top_documents = ["A", "C"] :=
  (ranking_descending_stable_selection [] [] [] 0 0).2.2.2.2

/-- C2: the aggregate score of a document with chunk scores `s₁..sₙ`
(`n ≥ 1`) is `(Σ sᵢ) / sqrt n`; a single-chunk document scores exactly its
raw chunk similarity; and the document with chunks `[0.9, 0.8]` outranks
the document with the single chunk `0.95`, both for the real-valued scores
and for the executable comparison used by the sort. -/
theorem aggregate_score_formula (did : String) (cs : List ChunkHit) (h : cs ≠ []) :
    (∀ d ∈ mkDocScores [(did, cs)],
      DocScore.scoreR d =
        ((cs.map ChunkHit.score).sum : Real) / Real.sqrt (cs.length : Real)) ∧
    (∀ c : ChunkHit, DocScore.scoreR ⟨did, c.score, [c]⟩ = (c.score : Real)) ∧
    DocScore.scoreR ⟨did, 0.9 + 0.8, [⟨0, 0, 0.9⟩, ⟨1, 1, 0.8⟩]⟩ >
      DocScore.scoreR ⟨did, 0.95, [⟨2, 2, 0.95⟩]⟩ ∧
    docGE ⟨"X", 0.9 + 0.8, [⟨0, 0, 0.9⟩, ⟨1, 1, 0.8⟩]⟩ ⟨"X", 0.95, [⟨2, 2, 0.95⟩]⟩ = true := by
  refine ⟨?_, ?_, ?_, by with_unfolding_all decide⟩
  · intro d hd
    simp only [mkDocScores, List.map_cons, List.map_nil, List.mem_singleton] at hd
    subst hd
    simp only [DocScore.scoreR, List.length_insertionSort]
  · intro c
    simp only [DocScore.scoreR, List.length_cons, List.length_nil, Nat.zero_add,
      Nat.cast_one, Real.sqrt_one, div_one]
  · unfold DocScore.scoreR
    simp only [List.length_cons, List.length_nil]
    have hA : (((0.9 : Rat) + 0.8 : Rat) : Real) = 1.7 := by norm_num
    have hB : (((0.95 : Rat)) : Real) = 0.95 := by norm_num
    have hn2 : (((0 + 1 + 1 : Nat)) : Real) = 2 := by norm_num
    have hn1 : (((0 + 1 : Nat)) : Real) = 1 := by norm_num
    rw [hA, hB, hn2, hn1, Real.sqrt_one, div_one, gt_iff_lt, lt_div_iff
      (Real.sqrt_pos.mpr (by norm_num : (0:Real) < 2))]
    nlinarith [Real.sq_sqrt (by norm_num : (0:Real) ≤ 2), Real.sqrt_nonneg (2:Real),
      sq_nonneg (1.7 - 0.95 * Real.sqrt 2)]

/-- Witness for C2's theorem at a concrete single-chunk document. -/
theorem aggregate_score_formula_witness :
    ([⟨0, 0, (1:Rat)⟩] : List ChunkHit) ≠ [] ∧
    ((∀ d ∈ mkDocScores [("A", [⟨0, 0, (1:Rat)⟩])],
      DocScore.scoreR d =
        ((([⟨0, 0, (1:Rat)⟩] : List ChunkHit).map ChunkHit.score).sum : Real) /
          Real.sqrt (([⟨0, 0, (1:Rat)⟩] : List ChunkHit).length : Real)) ∧
    (∀ c : ChunkHit, DocScore.scoreR ⟨"A", c.score, [c]⟩ = (c.score : Real)) ∧
    DocScore.scoreR ⟨"A", 0.9 + 0.8, [⟨0, 0, 0.9⟩, ⟨1, 1, 0.8⟩]⟩ >
      DocScore.scoreR ⟨"A", 0.95, [⟨2, 2, 0.95⟩]⟩ ∧
    docGE ⟨"X", 0.9 + 0.8, [⟨0, 0, 0.9⟩, ⟨1, 1, 0.8⟩]⟩
      ⟨"X", 0.95, [⟨2, 2, 0.95⟩]⟩ = true) :=
  ⟨by decide, aggregate_score_formula "A" [⟨0, 0, 1⟩] (by decide)⟩

end TwoStage
